import Mathlib

/-!
Verification of the boot-image relocation and handoff sequence of
`proxyclient/tools/chainload.py`, and of the guest-session control flow of
`proxyclient/tools/run_guest.py`.

The relevant Python code is shallowly embedded below: pure computations
become Lean functions, the generated AArch64 relocation stub becomes an
explicit state-transition function on a machine state (byte-addressed
memory, 64-bit registers reduced modulo `2 ^ 64`), and effectful driver
code becomes functions producing explicit event traces.
-/

/-! ## Byte-addressed memory

Memory is a function from (byte) addresses to byte values.  `loadBytes m a k`
reads the `k` bytes starting at `a` as a little-endian number, as the AArch64
`ldp`/`ldr` instructions do; `storeBytes m a v k` writes the low `k` bytes of
`v` starting at `a`.  Proofs about the stub carry the invariant that every
memory cell holds a value below 256. -/

def loadBytes (m : Nat → Nat) : Nat → Nat → Nat
  | _, 0 => 0
  | a, k + 1 => m a + 256 * loadBytes m (a + 1) k

def storeBytes : (Nat → Nat) → Nat → Nat → Nat → (Nat → Nat)
  | m, _, _, 0 => m
  | m, a, v, k + 1 => storeBytes (fun x => if x = a then v % 256 else m x) (a + 1) (v / 256) k

/-- A 64-bit little-endian load, the effect of one register of `ldp`. -/
def load64 (m : Nat → Nat) (a : Nat) : Nat := loadBytes m a 8

/-- A 64-bit little-endian store, the effect of one register of `stp`. -/
def store64 (m : Nat → Nat) (a v : Nat) : Nat → Nat := storeBytes m a v 8

theorem storeBytes_frame : ∀ (k : Nat) (m : Nat → Nat) (a v x : Nat),
    x < a ∨ a + k ≤ x → storeBytes m a v k x = m x := by
  intro k
  induction k with
  | zero => intro m a v x _; rfl
  | succ k ih =>
    intro m a v x h
    simp only [storeBytes]
    rw [ih _ (a + 1) _ x (by omega)]
    have hx : x ≠ a := by omega
    simp [hx]

theorem storeBytes_get : ∀ (k : Nat) (m : Nat → Nat) (a v i : Nat),
    i < k → storeBytes m a v k (a + i) = v / 256 ^ i % 256 := by
  intro k
  induction k with
  | zero => intro m a v i h; omega
  | succ k ih =>
    intro m a v i h
    cases i with
    | zero =>
      simp only [storeBytes]
      rw [storeBytes_frame k _ (a + 1) _ (a + 0) (Or.inl (by omega))]
      simp
    | succ i =>
      simp only [storeBytes]
      have hrw : a + (i + 1) = (a + 1) + i := by omega
      rw [hrw, ih _ (a + 1) (v / 256) i (by omega), Nat.div_div_eq_div_mul]
      congr 2
      rw [pow_succ]
      ring

theorem storeBytes_lt : ∀ (k : Nat) (m : Nat → Nat) (a v : Nat),
    (∀ y, m y < 256) → ∀ x, storeBytes m a v k x < 256 := by
  intro k
  induction k with
  | zero => intro m a v hm x; exact hm x
  | succ k ih =>
    intro m a v hm x
    simp only [storeBytes]
    apply ih
    intro y
    by_cases hy : y = a
    · simp [hy]; omega
    · simp [hy]; exact hm y

theorem loadBytes_digit : ∀ (k : Nat) (m : Nat → Nat) (a : Nat),
    (∀ j, j < k → m (a + j) < 256) →
    ∀ i, i < k → loadBytes m a k / 256 ^ i % 256 = m (a + i) := by
  intro k
  induction k with
  | zero => intro m a _ i h; omega
  | succ k ih =>
    intro m a hm i hi
    have hma : m a < 256 := by have := hm 0 (by omega); simpa using this
    cases i with
    | zero =>
      simp only [loadBytes, pow_zero, Nat.div_one]
      rw [Nat.add_mul_mod_self_left]
      exact Nat.mod_eq_of_lt hma
    | succ i =>
      simp only [loadBytes]
      have h1 : (m a + 256 * loadBytes m (a + 1) k) / 256 ^ (i + 1)
          = loadBytes m (a + 1) k / 256 ^ i := by
        rw [pow_succ', ← Nat.div_div_eq_div_mul]
        congr 1
        rw [Nat.add_mul_div_left _ _ (by norm_num : (0:Nat) < 256),
          Nat.div_eq_of_lt hma]
        omega
      rw [h1, ih m (a + 1) (fun j hj => by
        have := hm (j + 1) (by omega)
        rwa [show a + (j + 1) = a + 1 + j by omega] at this) i (by omega)]
      congr 1
      omega

theorem store64_frame (m : Nat → Nat) (a v x : Nat) (h : x < a ∨ a + 8 ≤ x) :
    store64 m a v x = m x := storeBytes_frame 8 m a v x h

theorem store64_get (m : Nat → Nat) (a v i : Nat) (h : i < 8) :
    store64 m a v (a + i) = v / 256 ^ i % 256 := storeBytes_get 8 m a v i h

theorem store64_lt (m : Nat → Nat) (a v : Nat) (hm : ∀ y, m y < 256) :
    ∀ x, store64 m a v x < 256 := storeBytes_lt 8 m a v hm

theorem load64_digit (m : Nat → Nat) (a : Nat) (hm : ∀ y, m y < 256)
    (i : Nat) (hi : i < 8) : load64 m a / 256 ^ i % 256 = m (a + i) :=
  loadBytes_digit 8 m a (fun j _ => hm (a + j)) i hi

/-! ## The relocation stub

`chainload.py` assembles the following stub (only `entry` is interpolated
into the assembly text; the base address passed to the assembler is
`image_addr + image_size`):

```
1:      ldp x4, x5, [x1], #8
        stp x4, x5, [x2]
        dc cvau, x2
        ic ivau, x2
        add x2, x2, #8
        sub x3, x3, #8
        cbnz x3, 1b
        ldr x1, ={entry}
        br x1
```

At invocation, `x0` holds the boot-args address, `x1` the copy source,
`x2` the copy destination and `x3` the remaining byte count.  `StubState`
holds the registers the loop touches plus memory; `stubBody` is the effect
of one pass through the loop body (instructions `ldp` through `sub`; the
cache-maintenance instructions `dc cvau`/`ic ivau` have no effect on the
architectural state modelled here).  Registers are 64 bits wide, so every
register write is reduced modulo `2 ^ 64`. -/

structure StubState where
  x1 : Nat
  x2 : Nat
  x3 : Nat
  x4 : Nat
  x5 : Nat
  mem : Nat → Nat

def stubBody (s : StubState) : StubState :=
  -- ldp x4, x5, [x1], #8 : load the pair from [x1], [x1+8], then x1 := x1 + 8
  let x4 := load64 s.mem s.x1
  let x5 := load64 s.mem ((s.x1 + 8) % 2 ^ 64)
  let x1 := (s.x1 + 8) % 2 ^ 64
  -- stp x4, x5, [x2] : store the pair to [x2], [x2+8]
  let m := store64 s.mem s.x2 x4
  let m := store64 m ((s.x2 + 8) % 2 ^ 64) x5
  -- dc cvau, x2 / ic ivau, x2 : cache maintenance, no architectural effect
  -- add x2, x2, #8
  let x2 := (s.x2 + 8) % 2 ^ 64
  -- sub x3, x3, #8 : two's-complement subtraction of 8
  let x3 := (s.x3 + (2 ^ 64 - 8)) % 2 ^ 64
  { x1 := x1, x2 := x2, x3 := x3, x4 := x4, x5 := x5, mem := m }

/-- Run the stub's copy loop.  The loop is a do-while: the body executes
before `cbnz x3, 1b` tests the counter.  Returns the state at loop exit
together with the number of body executions, or `none` if the loop has not
exited within `fuel` iterations. -/
def stubLoop : Nat → StubState → Option (StubState × Nat)
  | 0, _ => none
  | fuel + 1, s =>
    let t := stubBody s
    if t.x3 = 0 then some (t, 1)
    else
      match stubLoop fuel t with
      | none => none
      | some p => some (p.1, p.2 + 1)

/-- Run the whole stub: the copy loop followed by `ldr x1, ={entry}` and
`br x1`.  Returns the final state, the number of loop iterations, and the
branch target, or `none` if the loop does not exit within `fuel`
iterations. -/
def stubExec (entry fuel : Nat) (s : StubState) : Option (StubState × Nat × Nat) :=
  match stubLoop fuel s with
  | none => none
  | some p => some ({ p.1 with x1 := entry % 2 ^ 64 }, p.2, entry % 2 ^ 64)

/-! ## One pass through the loop body -/

theorem iterMem_get (m : Nat → Nat) (hm : ∀ y, m y < 256) (src dst i : Nat)
    (hi : i < 16) :
    store64 (store64 m dst (load64 m src)) (dst + 8) (load64 m (src + 8)) (dst + i)
      = m (src + i) := by
  by_cases h8 : i < 8
  · rw [store64_frame _ _ _ _ (Or.inl (by omega)), store64_get _ _ _ i h8]
    exact load64_digit m src hm i h8
  · have hrw : dst + i = (dst + 8) + (i - 8) := by omega
    rw [hrw, store64_get _ _ _ (i - 8) (by omega),
      load64_digit m (src + 8) hm (i - 8) (by omega)]
    congr 1
    omega

theorem iterMem_frame (m : Nat → Nat) (src dst x : Nat)
    (h : x < dst ∨ dst + 16 ≤ x) :
    store64 (store64 m dst (load64 m src)) (dst + 8) (load64 m (src + 8)) x = m x := by
  rw [store64_frame _ _ _ _ (by omega), store64_frame _ _ _ _ (by omega)]

theorem iterMem_lt (m : Nat → Nat) (hm : ∀ y, m y < 256) (src dst : Nat) :
    ∀ x, store64 (store64 m dst (load64 m src)) (dst + 8) (load64 m (src + 8)) x < 256 :=
  store64_lt _ _ _ (store64_lt _ _ _ hm)

theorem stubBody_run (src dst c x4 x5 : Nat) (m : Nat → Nat)
    (hs : src + 8 < 2 ^ 64) (hd : dst + 8 < 2 ^ 64) :
    stubBody ⟨src, dst, c, x4, x5, m⟩ =
      ⟨src + 8, dst + 8, (c + (2 ^ 64 - 8)) % 2 ^ 64,
       load64 m src, load64 m (src + 8),
       store64 (store64 m dst (load64 m src)) (dst + 8) (load64 m (src + 8))⟩ := by
  have e1 : (src + 8) % 2 ^ 64 = src + 8 := Nat.mod_eq_of_lt hs
  have e2 : (dst + 8) % 2 ^ 64 = dst + 8 := Nat.mod_eq_of_lt hd
  simp only [stubBody, e1, e2]

/-- C1 (amended): the copy loop loads and stores 16 bytes (a register pair)
per iteration, but advances the source and destination pointers and
decrements the remaining-byte counter by 8, not 16.  For an initial count
`8 * K > 0` (the counter is always a multiple of 8: the staged region size
is aligned), with non-overlapping, non-wrapping source and destination
regions, the loop exits when the counter reaches zero after exactly `K`
iterations, having copied the initial count plus 8 further bytes: every
destination byte at offset `i < 8 * K + 8` equals the source byte at the
same offset, and no memory outside those `8 * K + 8` destination bytes is
modified. -/
theorem stub_copy_loop (K src dst x40 x50 : Nat) (m : Nat → Nat)
    (hK : 0 < K) (hm : ∀ y, m y < 256)
    (hs : src + 8 * K + 8 ≤ 2 ^ 64) (hd : dst + 8 * K + 8 ≤ 2 ^ 64)
    (hdisj : src + 8 * K + 8 ≤ dst ∨ dst + 8 * K + 8 ≤ src) :
    ∃ r : StubState × Nat,
      stubLoop K ⟨src, dst, 8 * K, x40, x50, m⟩ = some r ∧ r.2 = K ∧
      r.1.x1 = src + 8 * K ∧ r.1.x2 = dst + 8 * K ∧ r.1.x3 = 0 ∧
      (∀ i, i < 8 * K + 8 → r.1.mem (dst + i) = m (src + i)) ∧
      (∀ x, x < dst ∨ dst + 8 * K + 8 ≤ x → r.1.mem x = m x) := by
  have hw : (2 : Nat) ^ 64 = 18446744073709551616 := by norm_num
  induction K generalizing src dst x40 x50 m with
  | zero => omega
  | succ K ih =>
    rw [hw] at hs hd
    have hbody := stubBody_run src dst (8 * (K + 1)) x40 x50 m
      (by rw [hw]; omega) (by rw [hw]; omega)
    have hx3 : (8 * (K + 1) + (2 ^ 64 - 8)) % 2 ^ 64 = 8 * K := by rw [hw]; omega
    rw [hx3] at hbody
    rcases Nat.eq_zero_or_pos K with h0 | hKpos
    · subst h0
      refine ⟨(⟨src + 8, dst + 8, 0, load64 m src, load64 m (src + 8),
        store64 (store64 m dst (load64 m src)) (dst + 8) (load64 m (src + 8))⟩, 1),
        ?_, rfl, by simp, by simp, rfl, ?_, ?_⟩
      · simp only [stubLoop, hbody]
        norm_num
      · intro i hi
        exact iterMem_get m hm src dst i (by omega)
      · intro x hx
        exact iterMem_frame m src dst x (by omega)
    · have hm1 : ∀ y,
          store64 (store64 m dst (load64 m src)) (dst + 8) (load64 m (src + 8)) y < 256 :=
        iterMem_lt m hm src dst
      obtain ⟨r, hr, hrk, hr1, hr2, hr3, hrmem, hrfr⟩ :=
        ih (src + 8) (dst + 8) (load64 m src) (load64 m (src + 8))
          (store64 (store64 m dst (load64 m src)) (dst + 8) (load64 m (src + 8)))
          hKpos hm1 (by rw [hw]; omega) (by rw [hw]; omega) (by omega)
      have hsrcpres : ∀ j, j < 8 * K + 8 →
          store64 (store64 m dst (load64 m src)) (dst + 8) (load64 m (src + 8))
            (src + 8 + j) = m (src + 8 + j) := by
        intro j hj
        exact iterMem_frame m src dst _ (by omega)
      refine ⟨(r.1, r.2 + 1), ?_, by omega, by rw [hr1]; omega, by rw [hr2]; omega,
        hr3, ?_, ?_⟩
      · simp only [stubLoop, hbody]
        rw [if_neg (by simpa using Nat.not_eq_zero_of_lt (by omega : 0 < 8 * K)), hr]
      · intro i hi
        by_cases h8 : i < 8
        · rw [hrfr (dst + i) (Or.inl (by omega))]
          exact iterMem_get m hm src dst i (by omega)
        · have hrw : dst + i = (dst + 8) + (i - 8) := by omega
          have hrw2 : src + 8 + (i - 8) = src + i := by omega
          rw [hrw, hrmem (i - 8) (by omega), hsrcpres (i - 8) (by omega), hrw2]
      · intro x hx
        rw [hrfr x (by omega)]
        exact iterMem_frame m src dst x (by omega)

/-- Concrete byte memory for witnesses and counterexamples: bytes `1..24`
at addresses `0..23`, zero elsewhere. -/
def cexMem : Nat → Nat := fun x => if x < 24 then x + 1 else 0

theorem cexMem_lt : ∀ y, cexMem y < 256 := by
  intro y
  unfold cexMem
  split <;> omega

/-- Witness for `stub_copy_loop` at `K = 2`, `src = 0`, `dst = 32`. -/
theorem stub_copy_loop_witness :
    ∃ r : StubState × Nat,
      stubLoop 2 ⟨0, 32, 8 * 2, 0, 0, cexMem⟩ = some r ∧ r.2 = 2 ∧
      r.1.x1 = 0 + 8 * 2 ∧ r.1.x2 = 32 + 8 * 2 ∧ r.1.x3 = 0 ∧
      (∀ i, i < 8 * 2 + 8 → r.1.mem (32 + i) = cexMem (0 + i)) ∧
      (∀ x, x < 32 ∨ 32 + 8 * 2 + 8 ≤ x → r.1.mem x = cexMem x) :=
  stub_copy_loop 2 0 32 0 0 cexMem (by norm_num) cexMem_lt
    (by norm_num) (by norm_num) (Or.inl (by norm_num))

/-- C1, counterexample to the claim as stated.  Starting from a remaining
count of exactly 16 bytes (one claimed "unit"), the loop needs 2 iterations
to exit, not 1 (after one iteration the counter is 8, not 0, so with fuel 1
the loop has not exited); and the destination byte at offset 16 — beyond
the initial remaining count — is overwritten (from 0 to 17, the source byte
at offset 16).  So the loop does not make 16 bytes of progress per
iteration, and it copies more than "precisely the initial remaining-byte
count". -/
theorem stub_copy_claim_cex :
    (stubLoop 2 ⟨0, 32, 16, 0, 0, cexMem⟩).map (fun p => p.2) = some 2 ∧
    (stubLoop 1 ⟨0, 32, 16, 0, 0, cexMem⟩).map (fun p => p.2) = none ∧
    (stubLoop 2 ⟨0, 32, 16, 0, 0, cexMem⟩).map (fun p => p.1.mem (32 + 16)) = some 17 ∧
    cexMem (32 + 16) = 0 := ⟨rfl, rfl, rfl, rfl⟩

/-! ## The counter sequence of the copy loop

The number of iterations the loop performs depends only on `x3`.
`loopCount` mirrors `stubLoop` on the counter alone. -/

def loopCount : Nat → Nat → Option Nat
  | 0, _ => none
  | fuel + 1, c =>
    let c' := (c + (2 ^ 64 - 8)) % 2 ^ 64
    if c' = 0 then some 1
    else
      match loopCount fuel c' with
      | none => none
      | some k => some (k + 1)

theorem stubLoop_count : ∀ (fuel : Nat) (s : StubState),
    (stubLoop fuel s).map (fun p => p.2) = loopCount fuel s.x3 := by
  intro fuel
  induction fuel with
  | zero => intro s; rfl
  | succ fuel ih =>
    intro s
    have hx3 : (stubBody s).x3 = (s.x3 + (2 ^ 64 - 8)) % 2 ^ 64 := rfl
    simp only [stubLoop, loopCount]
    by_cases h : (s.x3 + (2 ^ 64 - 8)) % 2 ^ 64 = 0
    · rw [hx3, h]
      simp
    · rw [hx3]
      rw [if_neg h, if_neg h]
      have hrec := ih (stubBody s)
      rw [hx3] at hrec
      cases hsl : stubLoop fuel (stubBody s) with
      | none =>
        rw [hsl] at hrec
        simp only [Option.map_none'] at hrec
        rw [← hrec]
        rfl
      | some p =>
        rw [hsl] at hrec
        simp only [Option.map_some'] at hrec
        rw [← hrec]
        rfl

theorem loopCount_exit : ∀ (k : Nat), 0 < k → 8 * k < 2 ^ 64 →
    ∀ fuel, k ≤ fuel → loopCount fuel (8 * k) = some k := by
  intro k
  induction k with
  | zero => omega
  | succ k ih =>
    intro _ hlt fuel hfuel
    obtain ⟨fuel', rfl⟩ : ∃ f, fuel = f + 1 := ⟨fuel - 1, by omega⟩
    have hw : (2 : Nat) ^ 64 = 18446744073709551616 := by norm_num
    rw [hw] at hlt
    have hc' : (8 * (k + 1) + (2 ^ 64 - 8)) % 2 ^ 64 = 8 * k := by rw [hw]; omega
    simp only [loopCount, hc']
    rcases Nat.eq_zero_or_pos k with h0 | hk
    · subst h0
      simp
    · rw [if_neg (by omega), ih hk (by rw [hw]; omega) fuel' (by omega)]

theorem stubExec_of_loop (entry fuel : Nat) (s t : StubState) (k : Nat)
    (h : stubLoop fuel s = some (t, k)) :
    stubExec entry fuel s = some ({ t with x1 := entry % 2 ^ 64 }, k, entry % 2 ^ 64) := by
  unfold stubExec
  rw [h]

theorem loopCount_zero_start : loopCount (2 ^ 61) 0 = some (2 ^ 61) := by
  have h61 : (2 : Nat) ^ 61 = 2305843009213693952 := by norm_num
  obtain ⟨f, hf⟩ : ∃ f, (2 : Nat) ^ 61 = f + 1 := ⟨2 ^ 61 - 1, by rw [h61]⟩
  rw [hf]
  simp only [loopCount]
  have hc : ((0 : Nat) + (2 ^ 64 - 8)) % 2 ^ 64 = 8 * (2 ^ 61 - 1) := by norm_num
  rw [hc, if_neg (by norm_num)]
  rw [loopCount_exit (2 ^ 61 - 1) (by norm_num) (by norm_num) f (by omega)]
  show some ((2 : Nat) ^ 61 - 1 + 1) = some (f + 1)
  rw [show (2 : Nat) ^ 61 - 1 + 1 = f + 1 by omega]

/-- C2 (amended): the copy loop is a do-while — `cbnz x3, 1b` sits at the
bottom — so with a remaining count of 0 the body executes before the
counter is ever tested.  `sub x3, x3, #8` underflows the 64-bit counter to
`2 ^ 64 - 8`, and the loop only exits once the counter wraps back to zero,
after exactly `2 ^ 61` iterations; only then does the final branch to the
computed entry address execute.  The stub does not perform zero copy
iterations on an empty payload. -/
theorem stub_zero_remaining (entry src dst x40 x50 : Nat) (m : Nat → Nat) :
    ∃ t : StubState,
      stubExec entry (2 ^ 61) ⟨src, dst, 0, x40, x50, m⟩
        = some (t, 2 ^ 61, entry % 2 ^ 64) := by
  have hmap := stubLoop_count (2 ^ 61) ⟨src, dst, 0, x40, x50, m⟩
  rw [loopCount_zero_start] at hmap
  obtain ⟨q, hp, hq⟩ := Option.map_eq_some'.mp hmap
  obtain ⟨t, k⟩ := q
  have hk : k = 2 ^ 61 := hq
  subst hk
  exact ⟨{ t with x1 := entry % 2 ^ 64 }, stubExec_of_loop entry _ _ t _ hp⟩

/-- C2, counterexample to the claim as stated.  With remaining count 0, the
final branch has not executed even after 3 passes through the loop
(`stubExec` with fuel 3 is still `none`), yet a copy iteration did happen:
the first body execution writes the 16 source bytes to the destination
(byte 32 changes from 0 to 1), and the counter has underflowed to
`2 ^ 64 - 8`.  So the stub does not perform zero copy iterations with an
immediate branch to the entry address. -/
theorem stub_zero_claim_cex :
    stubExec 4096 3 ⟨0, 32, 0, 0, 0, cexMem⟩ = none ∧
    (stubBody ⟨0, 32, 0, 0, 0, cexMem⟩).mem 32 = 1 ∧
    cexMem 32 = 0 ∧
    (stubBody ⟨0, 32, 0, 0, 0, cexMem⟩).x3 = 2 ^ 64 - 8 :=
  ⟨rfl, rfl, rfl, rfl⟩

/-! ## Layout planning

`chainload.py` computes the staging layout as:

```
image_size = align(len(image))
sepfw_off = image_size
image_size += align(sepfw_length)
bootargs_off = image_size
bootargs_size = 0x4000
image_size += bootargs_size
```
-/

/-- Modelled from the spec: the `align` helper comes from the proxy-utility
layer, which is not part of this excerpt; per the spec it rounds a length
up to the next multiple of the alignment (`alignUp(v, a)`). -/
def alignUp (v a : Nat) : Nat := (v + a - 1) / a * a

structure Segment where
  off : Nat
  len : Nat
deriving DecidableEq

/-- Two segments' offset ranges do not overlap. -/
def segDisjoint (s t : Segment) : Prop := s.off + s.len ≤ t.off ∨ t.off + t.len ≤ s.off

structure Layout where
  image : Segment
  firmware : Segment
  bootargs : Segment
  totalSize : Nat
deriving DecidableEq

/-- The layout computation of `chainload.py` (lines 35-40), with the
alignment granule as a parameter. -/
def planLayout (imageLen sepfwLen a : Nat) : Layout :=
  let image_size := alignUp imageLen a
  let sepfw_off := image_size
  let image_size := image_size + alignUp sepfwLen a
  let bootargs_off := image_size
  let bootargs_size := 0x4000
  let image_size := image_size + bootargs_size
  { image := ⟨0, alignUp imageLen a⟩
    firmware := ⟨sepfw_off, alignUp sepfwLen a⟩
    bootargs := ⟨bootargs_off, bootargs_size⟩
    totalSize := image_size }

/-- C4: the image segment sits at offset 0 with length
`alignUp(imageLen, a)`, the firmware segment immediately after with length
`alignUp(firmwareLen, a)`, and the fixed `0x4000`-byte boot-args segment
immediately after that; the three offset ranges are pairwise disjoint,
every segment offset is a multiple of `a`, and the total region size is the
final running offset — for all `imageLen` and `firmwareLen`, including
`firmwareLen = 0`. -/
theorem planLayout_spec (imageLen sepfwLen a : Nat) :
    (planLayout imageLen sepfwLen a).image.off = 0 ∧
    (planLayout imageLen sepfwLen a).image.len = alignUp imageLen a ∧
    (planLayout imageLen sepfwLen a).firmware.off
      = (planLayout imageLen sepfwLen a).image.off
        + (planLayout imageLen sepfwLen a).image.len ∧
    (planLayout imageLen sepfwLen a).firmware.len = alignUp sepfwLen a ∧
    (planLayout imageLen sepfwLen a).bootargs.off
      = (planLayout imageLen sepfwLen a).firmware.off
        + (planLayout imageLen sepfwLen a).firmware.len ∧
    (planLayout imageLen sepfwLen a).bootargs.len = 0x4000 ∧
    (planLayout imageLen sepfwLen a).totalSize
      = (planLayout imageLen sepfwLen a).bootargs.off
        + (planLayout imageLen sepfwLen a).bootargs.len ∧
    a ∣ (planLayout imageLen sepfwLen a).image.off ∧
    a ∣ (planLayout imageLen sepfwLen a).firmware.off ∧
    a ∣ (planLayout imageLen sepfwLen a).bootargs.off ∧
    segDisjoint (planLayout imageLen sepfwLen a).image
      (planLayout imageLen sepfwLen a).firmware ∧
    segDisjoint (planLayout imageLen sepfwLen a).image
      (planLayout imageLen sepfwLen a).bootargs ∧
    segDisjoint (planLayout imageLen sepfwLen a).firmware
      (planLayout imageLen sepfwLen a).bootargs := by
  have hdvd : ∀ v : Nat, a ∣ alignUp v a := fun v => dvd_mul_left a ((v + a - 1) / a)
  refine ⟨rfl, rfl, by simp [planLayout], rfl, by simp [planLayout], rfl,
    by simp [planLayout], ?_, ?_, ?_, ?_, ?_, ?_⟩
  · exact Dvd.intro 0 rfl
  · exact hdvd imageLen
  · exact dvd_add (hdvd imageLen) (hdvd sepfwLen)
  · exact Or.inl (by simp [planLayout])
  · exact Or.inl (by simp [planLayout])
  · exact Or.inl (by simp [planLayout])

/-- The spec's own example: `plan(0x1000, 0, align=0x1000)` places the
segments at offsets 0, 0x1000 and 0x1000, with total size 0x5000 (the
firmware segment consumes zero bytes). -/
theorem planLayout_example :
    planLayout 0x1000 0 0x1000
      = ⟨⟨0, 0x1000⟩, ⟨0x1000, 0⟩, ⟨0x1000, 0x4000⟩, 0x5000⟩ := by
  decide

/-! ## Device-tree (ADT) patching and secondary-core reset vectors

In the `args.xnu` branch, `chainload.py` performs, in order:

```
u.adt["chosen"]["memory-map"].SEPFW = (new_base + sepfw_off, sepfw_length)
u.adt["chosen"]["memory-map"].BootArgs = (image_addr + bootargs_off, bootargs_size)
rvbar = entry & ~0xfff
for cpu in u.adt["cpus"][1:]:
    p.write64(cpu.cpu_impl_reg.addr, rvbar)
u.push_adt()
```

Note that the `SEPFW` entry is rebased to `new_base` (the true kernel base)
while the `BootArgs` entry is based at `image_addr` (the staging region).
-/

/-- The reset vector value: `entry & ~0xfff` in Python, which for a
non-negative arbitrary-precision integer clears the low 12 bits. -/
def rvbar (entry : Nat) : Nat := entry - entry % 0x1000

inductive ADTEvent where
  | setSEPFW (base len : Nat)
  | setBootArgs (base len : Nat)
  | writeRVBAR (addr val : Nat)
  | pushADT
deriving DecidableEq

def isPush : ADTEvent → Bool
  | .pushADT => true
  | _ => false

/-- The sequence of device-tree edits, proxy register writes and commits
performed by the `args.xnu` branch.  `cpuImplRegs` lists the
implementation-defined control-register addresses of all cores in
device-tree order; the loop iterates over `cpus[1:]`, i.e. all but the
first (primary) core. -/
def xnuAdtTrace (newBase imageAddr sepfwOff bootargsOff sepfwLen bootargsSize
    entry : Nat) (cpuImplRegs : List Nat) : List ADTEvent :=
  [ADTEvent.setSEPFW (newBase + sepfwOff) sepfwLen,
   ADTEvent.setBootArgs (imageAddr + bootargsOff) bootargsSize]
  ++ (cpuImplRegs.drop 1).map (fun r => ADTEvent.writeRVBAR r (rvbar entry))
  ++ [ADTEvent.pushADT]

theorem filter_isPush_rvbar (l : List Nat) (entry : Nat) :
    (l.map (fun r => ADTEvent.writeRVBAR r (rvbar entry))).filter isPush = [] := by
  induction l with
  | nil => rfl
  | cons x xs ih => simp [isPush, ih]

/-- C3 (amended): the full-OS path sets the device-tree firmware-blob entry
to `(newBase + sepfwOff, sepfwLen)` — rebased to the kernel's true base —
but sets the boot-args entry to `(imageAddr + bootargsOff, bootargsSize)`,
based at the *staging* region's address, which in general differs from
`newBase`; the two entries do not share one region base.  After all
patches (including the secondary-core reset-vector writes) the device tree
is committed by exactly one push, which comes last. -/
theorem xnuAdtTrace_spec (newBase imageAddr sepfwOff bootargsOff sepfwLen
    bootargsSize entry : Nat) (cpuImplRegs : List Nat) :
    xnuAdtTrace newBase imageAddr sepfwOff bootargsOff sepfwLen bootargsSize
        entry cpuImplRegs
      = [ADTEvent.setSEPFW (newBase + sepfwOff) sepfwLen,
         ADTEvent.setBootArgs (imageAddr + bootargsOff) bootargsSize]
        ++ (cpuImplRegs.drop 1).map (fun r => ADTEvent.writeRVBAR r (rvbar entry))
        ++ [ADTEvent.pushADT] ∧
    ((xnuAdtTrace newBase imageAddr sepfwOff bootargsOff sepfwLen bootargsSize
        entry cpuImplRegs).filter isPush).length = 1 ∧
    (∃ pre, xnuAdtTrace newBase imageAddr sepfwOff bootargsOff sepfwLen
        bootargsSize entry cpuImplRegs = pre ++ [ADTEvent.pushADT]) := by
  have hfil : (xnuAdtTrace newBase imageAddr sepfwOff bootargsOff sepfwLen
      bootargsSize entry cpuImplRegs).filter isPush = [ADTEvent.pushADT] := by
    simp only [xnuAdtTrace, List.filter_append, filter_isPush_rvbar]
    rfl
  refine ⟨rfl, ?_, ?_⟩
  · rw [hfil]
    rfl
  · exact ⟨_, rfl⟩

/-- C3, counterexample to the claim as stated: with
`newBase = 0x800000000`, `imageAddr = 0x900000000`, `sepfwOff = 0x10000`
and `bootargsOff = 0x20000`, the code patches the firmware entry to base
`0x800010000` and the boot-args entry to base `0x900020000`; no single
region base `rb` satisfies both `0x800010000 = rb + 0x10000` and
`0x900020000 = rb + 0x20000`. -/
theorem xnuAdtTrace_same_base_cex :
    xnuAdtTrace 0x800000000 0x900000000 0x10000 0x20000 0x8000 0x4000 0 []
      = [ADTEvent.setSEPFW 0x800010000 0x8000,
         ADTEvent.setBootArgs 0x900020000 0x4000, ADTEvent.pushADT] ∧
    ¬ ∃ rb : Nat, 0x800010000 = rb + 0x10000 ∧ 0x900020000 = rb + 0x20000 := by
  constructor
  · rfl
  · rintro ⟨rb, h1, h2⟩
    omega

/-- C6: every reset-vector value written to a secondary core's
implementation-defined control register is the entry address with its low
12 bits cleared, regardless of the entry address's alignment; the value is
a multiple of `0x1000`, it is the same for every secondary core, and every
core other than the first receives the write. -/
theorem rvbar_secondary_writes (newBase imageAddr sepfwOff bootargsOff sepfwLen
    bootargsSize entry : Nat) (cpuImplRegs : List Nat) :
    (∀ a v, ADTEvent.writeRVBAR a v
        ∈ xnuAdtTrace newBase imageAddr sepfwOff bootargsOff sepfwLen
            bootargsSize entry cpuImplRegs →
      v = rvbar entry ∧ v = entry - entry % 0x1000 ∧ v % 0x1000 = 0) ∧
    (∀ a v a' v', ADTEvent.writeRVBAR a v
        ∈ xnuAdtTrace newBase imageAddr sepfwOff bootargsOff sepfwLen
            bootargsSize entry cpuImplRegs →
      ADTEvent.writeRVBAR a' v'
        ∈ xnuAdtTrace newBase imageAddr sepfwOff bootargsOff sepfwLen
            bootargsSize entry cpuImplRegs → v = v') ∧
    (∀ r, r ∈ cpuImplRegs.drop 1 →
      ADTEvent.writeRVBAR r (rvbar entry)
        ∈ xnuAdtTrace newBase imageAddr sepfwOff bootargsOff sepfwLen
            bootargsSize entry cpuImplRegs) := by
  have hval : ∀ a v, ADTEvent.writeRVBAR a v
      ∈ xnuAdtTrace newBase imageAddr sepfwOff bootargsOff sepfwLen
          bootargsSize entry cpuImplRegs → v = rvbar entry := by
    intro a v hmem
    simp only [xnuAdtTrace, List.mem_append, List.mem_singleton, List.mem_cons,
      List.mem_map, List.not_mem_nil] at hmem
    rcases hmem with ((h | h) | ⟨r, _, h⟩) | h
    · exact absurd h (by simp)
    · rcases h with h | h
      · exact absurd h (by simp)
      · exact absurd h (by simp)
    · exact ((ADTEvent.writeRVBAR.injEq _ _ _ _).mp h.symm).2
    · exact absurd h (by simp)
  refine ⟨?_, ?_, ?_⟩
  · intro a v hmem
    refine ⟨hval a v hmem, ?_, ?_⟩
    · rw [hval a v hmem]; rfl
    · rw [hval a v hmem]
      unfold rvbar
      omega
  · intro a v a' v' h1 h2
    rw [hval a v h1, hval a' v' h2]
  · intro r hr
    simp only [xnuAdtTrace, List.mem_append, List.mem_map]
    exact Or.inl (Or.inr ⟨r, hr, rfl⟩)

/-- Witness for `rvbar_secondary_writes`: with a deliberately misaligned
entry address `0x800000123` and cores `[0x210040000, 0x210050000]`, the
secondary core at `0x210050000` receives the write, whose value
`0x800000000` has its low 12 bits cleared. -/
theorem rvbar_secondary_writes_witness :
    ADTEvent.writeRVBAR 0x210050000 (rvbar 0x800000123)
      ∈ xnuAdtTrace 0 0 0 0 0 0 0x800000123 [0x210040000, 0x210050000] ∧
    rvbar 0x800000123 % 0x1000 = 0 ∧ rvbar 0x800000123 = 0x800000000 := by
  have h := rvbar_secondary_writes 0 0 0 0 0 0 0x800000123
    [0x210040000, 0x210050000]
  have hmem := h.2.2 0x210050000 (by decide)
  exact ⟨hmem, (h.1 _ _ hmem).2.2, by decide⟩

/-! ## Boot-argument builder

`chainload.py` copies the active boot-argument template (`tba = u.ba.copy()`)
and then mutates, in order: the top-of-kernel-data pointer, the command
line and video-display flag (only when caller tokens are present), and the
fixed virtual-address offset correction, before serializing the record.
Only the mutated fields are modelled. -/

structure BootArgsRec where
  top_of_kernel_data : Nat
  cmdline : String
  video_display : Nat
  virt_base : Nat
  devtree : Nat
deriving DecidableEq

/-- Python's `" ".join(tokens)`. -/
def joinTokens : List String → String
  | [] => ""
  | [t] => t
  | t :: ts => t ++ " " ++ joinTokens ts

/-- Python's `str.split()` with no separator: split on runs of whitespace,
dropping empty pieces.  `cur` accumulates the current word in reverse. -/
def splitGo : List Char → List Char → List String
  | [], cur => if cur.isEmpty then [] else [String.mk cur.reverse]
  | c :: cs, cur =>
    if c.isWhitespace then
      (if cur.isEmpty then [] else [String.mk cur.reverse]) ++ splitGo cs []
    else
      splitGo cs (c :: cur)

def splitTokens (s : String) : List String := splitGo s.data []

/-- The hard-coded virtual-address offset correction
`0xfffffff007004000 - 0xfffffe0007004000`. -/
def vaOffsetDelta : Nat := 0xfffffff007004000 - 0xfffffe0007004000

/-- The boot-argument mutations of `chainload.py` (lines 66-87): the
top-of-kernel-data rule, the command-line/video rule, and the
unconditional virtual-address offset correction. -/
def buildBootArgs (xnu : Bool) (tba0 : BootArgsRec) (newBase imageSize : Nat)
    (tokens : List String) : BootArgsRec :=
  let tba :=
    if xnu then
      { tba0 with top_of_kernel_data := newBase + imageSize }
    else
      -- keep top_of_kdata high so the SEP firmware is not clobbered
      { tba0 with
          top_of_kernel_data := max tba0.top_of_kernel_data (newBase + imageSize) }
  let tba :=
    if tokens.length > 0 then
      let boot_args := joinTokens tokens
      let tba :=
        if "-v" ∈ splitTokens boot_args then
          { tba with video_display := 0 }
        else
          { tba with video_display := 1 }
      { tba with cmdline := boot_args }
    else
      tba
  { tba with
      virt_base := tba.virt_base + vaOffsetDelta
      devtree := tba.devtree + vaOffsetDelta }

theorem buildBootArgs_top (xnu : Bool) (tba0 : BootArgsRec) (newBase imageSize : Nat)
    (tokens : List String) :
    (buildBootArgs xnu tba0 newBase imageSize tokens).top_of_kernel_data
      = if xnu then newBase + imageSize
        else max tba0.top_of_kernel_data (newBase + imageSize) := by
  unfold buildBootArgs
  cases xnu <;> cases tokens <;> simp <;> split <;> rfl

/-- C5: on the full-OS (xnu) path the top-of-kernel-data field is set to
exactly `newBase + imageSize`; otherwise it is set to the maximum of the
template's current value and `newBase + imageSize`, so in that case it
never falls below the template's original value. -/
theorem top_of_kernel_data_rule (tba0 : BootArgsRec) (newBase imageSize : Nat)
    (tokens : List String) :
    (buildBootArgs true tba0 newBase imageSize tokens).top_of_kernel_data
      = newBase + imageSize ∧
    (buildBootArgs false tba0 newBase imageSize tokens).top_of_kernel_data
      = max tba0.top_of_kernel_data (newBase + imageSize) ∧
    tba0.top_of_kernel_data
      ≤ (buildBootArgs false tba0 newBase imageSize tokens).top_of_kernel_data := by
  rw [buildBootArgs_top, buildBootArgs_top]
  exact ⟨rfl, rfl, le_max_left _ _⟩

/-- C7: with a non-empty token list the command line becomes the tokens
joined by single spaces, and the video-display flag becomes 0 exactly when
the token `-v` occurs among the whitespace-split tokens of the joined
string, 1 otherwise; with no tokens, both fields keep the template's
values. -/
theorem cmdline_video_rule (xnu : Bool) (tba0 : BootArgsRec)
    (newBase imageSize : Nat) (tokens : List String) :
    (tokens ≠ [] →
      (buildBootArgs xnu tba0 newBase imageSize tokens).cmdline
          = joinTokens tokens ∧
      (buildBootArgs xnu tba0 newBase imageSize tokens).video_display
          = if "-v" ∈ splitTokens (joinTokens tokens) then 0 else 1) ∧
    (tokens = [] →
      (buildBootArgs xnu tba0 newBase imageSize tokens).cmdline = tba0.cmdline ∧
      (buildBootArgs xnu tba0 newBase imageSize tokens).video_display
          = tba0.video_display) := by
  constructor
  · intro hne
    unfold buildBootArgs
    cases tokens with
    | nil => exact absurd rfl hne
    | cons t ts =>
      cases xnu <;> simp <;> split <;> simp
  · intro heq
    subst heq
    unfold buildBootArgs
    cases xnu <;> simp

/-- Witness for `cmdline_video_rule`, using the spec's own example: tokens
`["-v", "console=ttyAMA0"]` join to `"-v console=ttyAMA0"` and enable the
video flag (0), tokens `["debug=0x14e"]` yield flag 1, and an empty token
list leaves the template untouched. -/
theorem cmdline_video_rule_witness :
    (buildBootArgs true ⟨0, "old", 7, 0, 0⟩ 0 0 ["-v", "console=ttyAMA0"]).cmdline
        = "-v console=ttyAMA0" ∧
    (buildBootArgs true ⟨0, "old", 7, 0, 0⟩ 0 0 ["-v", "console=ttyAMA0"]).video_display
        = 0 ∧
    (buildBootArgs true ⟨0, "old", 7, 0, 0⟩ 0 0 ["debug=0x14e"]).video_display = 1 ∧
    (buildBootArgs true ⟨0, "old", 7, 0, 0⟩ 0 0 []).cmdline = "old" ∧
    (buildBootArgs true ⟨0, "old", 7, 0, 0⟩ 0 0 []).video_display = 7 := by
  have h1 := (cmdline_video_rule true ⟨0, "old", 7, 0, 0⟩ 0 0
    ["-v", "console=ttyAMA0"]).1 (by decide)
  have h2 := (cmdline_video_rule true ⟨0, "old", 7, 0, 0⟩ 0 0
    ["debug=0x14e"]).1 (by decide)
  have h3 := (cmdline_video_rule true ⟨0, "old", 7, 0, 0⟩ 0 0 []).2 rfl
  refine ⟨?_, ?_, ?_, h3.1, h3.2⟩
  · rw [h1.1]
    rfl
  · rw [h1.2, if_pos (by decide)]
  · rw [h2.2, if_neg (by decide)]

/-! ## Stub synthesis and handoff

The stub assembly text interpolates only `{entry}`; the assembler is given
the text and the base address `image_addr + image_size`, and is a
deterministic function of those two inputs.  The four run-time inputs are
passed as arguments of `p.call` / `p.reload`:

```
p.call(stub.addr, new_base + bootargs_off, image_addr, new_base, image_size,
       reboot=True)
p.reload(stub.addr, new_base + bootargs_off, image_addr, new_base, image_size)
```
-/

inductive AInsn where
  | ldpPost (rt rt2 rn imm : Nat)
  | stp (rt rt2 rn : Nat)
  | dcCvau (rn : Nat)
  | icIvau (rn : Nat)
  | addImm (rd rn imm : Nat)
  | subImm (rd rn imm : Nat)
  | cbnz (rt target : Nat)
  | ldrLit (rt lit : Nat)
  | br (rn : Nat)
deriving DecidableEq

/-- The stub program of `chainload.py`, as written in the f-string; the
`cbnz` target is the index of the label `1:` (instruction 0).  The only
value interpolated into the text is `entry`. -/
def stubProgram (entry : Nat) : List AInsn :=
  [AInsn.ldpPost 4 5 1 8,
   AInsn.stp 4 5 2,
   AInsn.dcCvau 2,
   AInsn.icIvau 2,
   AInsn.addImm 2 2 8,
   AInsn.subImm 3 3 8,
   AInsn.cbnz 3 0,
   AInsn.ldrLit 1 entry,
   AInsn.br 1]

/-- The assembled stub: program text plus the base address it is assembled
for (`image_addr + image_size`). -/
structure StubImage where
  addr : Nat
  code : List AInsn
deriving DecidableEq

/-- Everything the handoff needs: the generated stub and the four
invocation-time proxy-call arguments `(new_base + bootargs_off,
image_addr, new_base, image_size)`. -/
structure HandoffPrep where
  stub : StubImage
  callArgs : Nat × Nat × Nat × Nat
deriving DecidableEq

def prepareHandoff (entry imageAddr newBase bootargsOff imageSize : Nat) :
    HandoffPrep :=
  { stub := ⟨imageAddr + imageSize, stubProgram entry⟩
    callArgs := (newBase + bootargsOff, imageAddr, newBase, imageSize) }

/-- C10: the four invocation-time stub inputs are passed as proxy call
arguments and are not baked into the generated stub: two runs agreeing on
the entry address and the stub's load address (`imageAddr + imageSize`)
produce identical stubs, whatever their boot-args addresses, source
addresses, destination bases and byte counts; and each run's four values
appear as its call arguments. -/
theorem stub_args_not_baked (entry aImg aNb aBo aSz bImg bNb bBo bSz : Nat)
    (hload : aImg + aSz = bImg + bSz) :
    (prepareHandoff entry aImg aNb aBo aSz).stub
      = (prepareHandoff entry bImg bNb bBo bSz).stub ∧
    (prepareHandoff entry aImg aNb aBo aSz).callArgs
      = (aNb + aBo, aImg, aNb, aSz) ∧
    (prepareHandoff entry bImg bNb bBo bSz).callArgs
      = (bNb + bBo, bImg, bNb, bSz) := by
  refine ⟨?_, rfl, rfl⟩
  unfold prepareHandoff
  rw [StubImage.mk.injEq]
  exact ⟨hload, rfl⟩

/-- Witness for `stub_args_not_baked`: runs `(imageAddr, count) =
(0x100, 0x300)` and `(0x200, 0x200)` share the load address `0x400` and
produce the same stub even though all four invocation inputs differ. -/
theorem stub_args_not_baked_witness :
    (prepareHandoff 0x1000 0x100 0x800 0x40 0x300).stub
      = (prepareHandoff 0x1000 0x200 0x900 0x80 0x200).stub ∧
    (prepareHandoff 0x1000 0x100 0x800 0x40 0x300).callArgs
      = (0x800 + 0x40, 0x100, 0x800, 0x300) ∧
    (prepareHandoff 0x1000 0x200 0x900 0x80 0x200).callArgs
      = (0x900 + 0x80, 0x200, 0x900, 0x200) :=
  stub_args_not_baked 0x1000 0x100 0x800 0x40 0x300 0x200 0x900 0x80 0x200
    (by norm_num)

/-! ## Handoff execution

```
if args.call:
    try:
        p.mmu_shutdown()
    except ProxyCommandError:
        pass
    p.call(stub.addr, ..., reboot=True)
else:
    p.reload(stub.addr, ...)
iface.nop()
```
-/

/-- Outcome of the `p.mmu_shutdown()` round-trip: success, a
`ProxyCommandError` (command not recognized/applicable), or some other
error, coded by a number. -/
inductive MMUOutcome where
  | ok
  | cmdError
  | otherError (code : Nat)
deriving DecidableEq

inductive ProxyEvent where
  | mmuShutdownAttempt
  | call (addr a0 a1 a2 a3 : Nat) (reboot : Bool)
  | reload (addr a0 a1 a2 a3 : Nat)
  | nop
deriving DecidableEq

def isStubInvoke : ProxyEvent → Bool
  | .call _ _ _ _ _ _ => true
  | .reload _ _ _ _ _ => true
  | _ => false

/-- The handoff tail of `chainload.py` (lines 112-125): the list of proxy
operations issued, and the error that propagated out of the driver, if
any.  In call mode, `ProxyCommandError` from `mmu_shutdown` is swallowed
by the bare `except ProxyCommandError: pass`; any other transport error
escapes the `try` and aborts the remaining operations. -/
def handoffRun (callMode : Bool) (mmu : MMUOutcome)
    (stubAddr a0 a1 a2 a3 : Nat) : List ProxyEvent × Option Nat :=
  if callMode then
    match mmu with
    | .otherError c => ([.mmuShutdownAttempt], some c)
    | _ => ([.mmuShutdownAttempt, .call stubAddr a0 a1 a2 a3 true, .nop], none)
  else
    ([.reload stubAddr a0 a1 a2 a3, .nop], none)

/-- C8: in call mode a `ProxyCommandError` from the MMU shutdown is
swallowed and execution continues to the stub call, while any other
transport failure propagates (and the stub is not invoked); whenever no
error propagates — in either mode — the stub is invoked exactly once, the
call-mode invocation requests a reboot, and a no-op liveness probe is the
last operation sent. -/
theorem handoff_modes (callMode : Bool) (mmu : MMUOutcome)
    (stubAddr a0 a1 a2 a3 : Nat) :
    (mmu = .cmdError →
      handoffRun true mmu stubAddr a0 a1 a2 a3
        = ([.mmuShutdownAttempt, .call stubAddr a0 a1 a2 a3 true, .nop], none)) ∧
    (∀ c, mmu = .otherError c →
      handoffRun true mmu stubAddr a0 a1 a2 a3
        = ([.mmuShutdownAttempt], some c)) ∧
    ((handoffRun callMode mmu stubAddr a0 a1 a2 a3).2 = none →
      ((handoffRun callMode mmu stubAddr a0 a1 a2 a3).1.filter isStubInvoke).length
          = 1 ∧
      (∃ pre, (handoffRun callMode mmu stubAddr a0 a1 a2 a3).1
          = pre ++ [ProxyEvent.nop]) ∧
      (callMode = true →
        ProxyEvent.call stubAddr a0 a1 a2 a3 true
          ∈ (handoffRun callMode mmu stubAddr a0 a1 a2 a3).1) ∧
      (callMode = false →
        ProxyEvent.reload stubAddr a0 a1 a2 a3
          ∈ (handoffRun callMode mmu stubAddr a0 a1 a2 a3).1)) := by
  refine ⟨?_, ?_, ?_⟩
  · intro h
    subst h
    rfl
  · intro c h
    subst h
    rfl
  · intro hok
    cases callMode with
    | false =>
      refine ⟨rfl, ⟨[ProxyEvent.reload stubAddr a0 a1 a2 a3], rfl⟩, ?_, ?_⟩
      · intro h
        exact absurd h (by simp)
      · intro _
        simp [handoffRun]
    | true =>
      cases mmu with
      | ok =>
        refine ⟨rfl, ⟨[ProxyEvent.mmuShutdownAttempt,
          ProxyEvent.call stubAddr a0 a1 a2 a3 true], rfl⟩, ?_, ?_⟩
        · intro _
          simp [handoffRun]
        · intro h
          exact absurd h (by simp)
      | cmdError =>
        refine ⟨rfl, ⟨[ProxyEvent.mmuShutdownAttempt,
          ProxyEvent.call stubAddr a0 a1 a2 a3 true], rfl⟩, ?_, ?_⟩
        · intro _
          simp [handoffRun]
        · intro h
          exact absurd h (by simp)
      | otherError c =>
        exact absurd hok (by simp [handoffRun])

/-- Witness for `handoff_modes`: in call mode with a swallowed
`ProxyCommandError`, the MMU shutdown is attempted, the stub is called
with a reboot request, and the no-op probe follows; with another error
(code 5), only the shutdown attempt happens and the error propagates. -/
theorem handoff_modes_witness :
    handoffRun true MMUOutcome.cmdError 0x8000 1 2 3 4
      = ([.mmuShutdownAttempt, .call 0x8000 1 2 3 4 true, .nop], none) ∧
    handoffRun true (MMUOutcome.otherError 5) 0x8000 1 2 3 4
      = ([.mmuShutdownAttempt], some 5) ∧
    ((handoffRun false MMUOutcome.ok 0x8000 1 2 3 4).1.filter isStubInvoke).length
      = 1 := by
  refine ⟨(handoff_modes true MMUOutcome.cmdError 0x8000 1 2 3 4).1 rfl,
    (handoff_modes true (MMUOutcome.otherError 5) 0x8000 1 2 3 4).2.1 5 rfl,
    ((handoff_modes false MMUOutcome.ok 0x8000 1 2 3 4).2.2 rfl).1⟩

/-! ## Guest session batch execution (run_guest.py)

```
for i in args.script:
    try:
        hv.run_script(i)
    except:
        traceback.print_exc()
        args.shell = True
for i in args.command:
    try:
        hv.run_code(i)
    except:
        traceback.print_exc()
        args.shell = True
if args.shell:
    run_shell(...)
else:
    hv.start()
```

A script or command is modelled by its outcome: `true` if it runs without
raising, `false` if it raises. -/

inductive GuestEvent where
  | ranScript (i : Nat) (ok : Bool)
  | scriptDiag (i : Nat)
  | ranCommand (i : Nat) (ok : Bool)
  | cmdDiag (i : Nat)
  | enterShell
  | startGuest
deriving DecidableEq

/-- The script loop: every script is attempted; a raising script prints a
diagnostic (`traceback.print_exc()`) and sets the shell flag, and the loop
continues with the next script. -/
def runScripts : Nat → Bool → List Bool → List GuestEvent × Bool
  | _, shell, [] => ([], shell)
  | idx, shell, ok :: rest =>
    let evs := if ok then [GuestEvent.ranScript idx true]
               else [GuestEvent.ranScript idx false, GuestEvent.scriptDiag idx]
    let r := runScripts (idx + 1) (if ok then shell else true) rest
    (evs ++ r.1, r.2)

/-- The inline-command loop, identical in structure to the script loop. -/
def runCommands : Nat → Bool → List Bool → List GuestEvent × Bool
  | _, shell, [] => ([], shell)
  | idx, shell, ok :: rest =>
    let evs := if ok then [GuestEvent.ranCommand idx true]
               else [GuestEvent.ranCommand idx false, GuestEvent.cmdDiag idx]
    let r := runCommands (idx + 1) (if ok then shell else true) rest
    (evs ++ r.1, r.2)

/-- The batch tail of `run_guest.py`: run all scripts, then all commands,
then either enter the interactive shell (if the flag was set by `-S` or by
any error) or start the guest directly. -/
def guestSession (shellFlag : Bool) (scripts cmds : List Bool) : List GuestEvent :=
  let r1 := runScripts 0 shellFlag scripts
  let r2 := runCommands 0 r1.2 cmds
  r1.1 ++ r2.1 ++ (if r2.2 then [GuestEvent.enterShell] else [GuestEvent.startGuest])

theorem runScripts_snd : ∀ (idx : Nat) (shell : Bool) (items : List Bool),
    (runScripts idx shell items).2 = (shell || items.any (fun ok => !ok)) := by
  intro idx shell items
  induction items generalizing idx shell with
  | nil => simp [runScripts]
  | cons ok rest ih =>
    simp only [runScripts, ih, List.any_cons]
    cases ok <;> simp

theorem runCommands_snd : ∀ (idx : Nat) (shell : Bool) (items : List Bool),
    (runCommands idx shell items).2 = (shell || items.any (fun ok => !ok)) := by
  intro idx shell items
  induction items generalizing idx shell with
  | nil => simp [runCommands]
  | cons ok rest ih =>
    simp only [runCommands, ih, List.any_cons]
    cases ok <;> simp

theorem runScripts_mem : ∀ (items : List Bool) (idx : Nat) (shell : Bool)
    (i : Nat) (ok : Bool), items.get? i = some ok →
    GuestEvent.ranScript (idx + i) ok ∈ (runScripts idx shell items).1 := by
  intro items
  induction items with
  | nil => intro idx shell i ok h; simp at h
  | cons ok0 rest ih =>
    intro idx shell i ok h
    cases i with
    | zero =>
      simp only [List.get?] at h
      cases h
      simp only [runScripts]
      cases ok0 <;> simp
    | succ i =>
      simp only [List.get?] at h
      have := ih (idx + 1) (if ok0 then shell else true) i ok h
      simp only [runScripts, List.mem_append]
      right
      rwa [show idx + 1 + i = idx + (i + 1) by omega] at this

theorem runCommands_mem : ∀ (items : List Bool) (idx : Nat) (shell : Bool)
    (i : Nat) (ok : Bool), items.get? i = some ok →
    GuestEvent.ranCommand (idx + i) ok ∈ (runCommands idx shell items).1 := by
  intro items
  induction items with
  | nil => intro idx shell i ok h; simp at h
  | cons ok0 rest ih =>
    intro idx shell i ok h
    cases i with
    | zero =>
      simp only [List.get?] at h
      cases h
      simp only [runCommands]
      cases ok0 <;> simp
    | succ i =>
      simp only [List.get?] at h
      have := ih (idx + 1) (if ok0 then shell else true) i ok h
      simp only [runCommands, List.mem_append]
      right
      rwa [show idx + 1 + i = idx + (i + 1) by omega] at this

theorem runScripts_diag : ∀ (items : List Bool) (idx : Nat) (shell : Bool)
    (i : Nat), items.get? i = some false →
    GuestEvent.scriptDiag (idx + i) ∈ (runScripts idx shell items).1 := by
  intro items
  induction items with
  | nil => intro idx shell i h; simp at h
  | cons ok0 rest ih =>
    intro idx shell i h
    cases i with
    | zero =>
      simp only [List.get?] at h
      cases h
      simp [runScripts]
    | succ i =>
      simp only [List.get?] at h
      have := ih (idx + 1) (if ok0 then shell else true) i h
      simp only [runScripts, List.mem_append]
      right
      rwa [show idx + 1 + i = idx + (i + 1) by omega] at this

theorem runCommands_diag : ∀ (items : List Bool) (idx : Nat) (shell : Bool)
    (i : Nat), items.get? i = some false →
    GuestEvent.cmdDiag (idx + i) ∈ (runCommands idx shell items).1 := by
  intro items
  induction items with
  | nil => intro idx shell i h; simp at h
  | cons ok0 rest ih =>
    intro idx shell i h
    cases i with
    | zero =>
      simp only [List.get?] at h
      cases h
      simp [runCommands]
    | succ i =>
      simp only [List.get?] at h
      have := ih (idx + 1) (if ok0 then shell else true) i h
      simp only [runCommands, List.mem_append]
      right
      rwa [show idx + 1 + i = idx + (i + 1) by omega] at this

theorem runScripts_no_terminal : ∀ (items : List Bool) (idx : Nat) (shell : Bool),
    GuestEvent.enterShell ∉ (runScripts idx shell items).1 ∧
    GuestEvent.startGuest ∉ (runScripts idx shell items).1 := by
  intro items
  induction items with
  | nil => intro idx shell; simp [runScripts]
  | cons ok rest ih =>
    intro idx shell
    have := ih (idx + 1) (if ok then shell else true)
    simp only [runScripts, List.mem_append]
    cases ok <;> simp_all

theorem runCommands_no_terminal : ∀ (items : List Bool) (idx : Nat) (shell : Bool),
    GuestEvent.enterShell ∉ (runCommands idx shell items).1 ∧
    GuestEvent.startGuest ∉ (runCommands idx shell items).1 := by
  intro items
  induction items with
  | nil => intro idx shell; simp [runCommands]
  | cons ok rest ih =>
    intro idx shell
    have := ih (idx + 1) (if ok then shell else true)
    simp only [runCommands, List.mem_append]
    cases ok <;> simp_all

/-- C9: every script and every inline command in the batch is attempted,
whatever happened to earlier items; each raising item is logged with a
diagnostic; if any item raised, the session ends by entering the
interactive shell (never by starting the guest directly), even if later
items succeeded; and the guest is started directly exactly when no item
raised and shell mode was not requested. -/
theorem guest_session_policy (shellFlag : Bool) (scripts cmds : List Bool) :
    (∀ i ok, scripts.get? i = some ok →
      GuestEvent.ranScript i ok ∈ guestSession shellFlag scripts cmds) ∧
    (∀ i ok, cmds.get? i = some ok →
      GuestEvent.ranCommand i ok ∈ guestSession shellFlag scripts cmds) ∧
    (∀ i, scripts.get? i = some false →
      GuestEvent.scriptDiag i ∈ guestSession shellFlag scripts cmds) ∧
    (∀ i, cmds.get? i = some false →
      GuestEvent.cmdDiag i ∈ guestSession shellFlag scripts cmds) ∧
    (false ∈ scripts ∨ false ∈ cmds →
      (∃ pre, guestSession shellFlag scripts cmds = pre ++ [GuestEvent.enterShell]) ∧
      GuestEvent.startGuest ∉ guestSession shellFlag scripts cmds) ∧
    (shellFlag = true →
      (∃ pre, guestSession shellFlag scripts cmds = pre ++ [GuestEvent.enterShell]) ∧
      GuestEvent.startGuest ∉ guestSession shellFlag scripts cmds) ∧
    (shellFlag = false → false ∉ scripts → false ∉ cmds →
      (∃ pre, guestSession shellFlag scripts cmds = pre ++ [GuestEvent.startGuest]) ∧
      GuestEvent.enterShell ∉ guestSession shellFlag scripts cmds) := by
  have hflag : (runCommands 0 (runScripts 0 shellFlag scripts).2 cmds).2
      = (shellFlag || scripts.any (fun ok => !ok) || cmds.any (fun ok => !ok)) := by
    rw [runCommands_snd, runScripts_snd]
  have hanyS : scripts.any (fun ok => !ok) = true ↔ false ∈ scripts := by
    simp [List.any_eq_true]
  have hanyC : cmds.any (fun ok => !ok) = true ↔ false ∈ cmds := by
    simp [List.any_eq_true]
  refine ⟨?_, ?_, ?_, ?_, ?_, ?_, ?_⟩
  · intro i ok h
    have := runScripts_mem scripts 0 shellFlag i ok h
    simp only [guestSession, List.mem_append]
    exact Or.inl (Or.inl (by simpa using this))
  · intro i ok h
    have := runCommands_mem cmds 0 (runScripts 0 shellFlag scripts).2 i ok h
    simp only [guestSession, List.mem_append]
    exact Or.inl (Or.inr (by simpa using this))
  · intro i h
    have := runScripts_diag scripts 0 shellFlag i h
    simp only [guestSession, List.mem_append]
    exact Or.inl (Or.inl (by simpa using this))
  · intro i h
    have := runCommands_diag cmds 0 (runScripts 0 shellFlag scripts).2 i h
    simp only [guestSession, List.mem_append]
    exact Or.inl (Or.inr (by simpa using this))
  · intro herr
    have hsh : (runCommands 0 (runScripts 0 shellFlag scripts).2 cmds).2 = true := by
      rw [hflag]
      rcases herr with h | h
      · simp [hanyS.mpr h]
      · simp [hanyC.mpr h]
    constructor
    · refine ⟨(runScripts 0 shellFlag scripts).1
        ++ (runCommands 0 (runScripts 0 shellFlag scripts).2 cmds).1, ?_⟩
      simp only [guestSession, hsh, if_true, List.append_assoc]
    · simp only [guestSession, hsh, if_true, List.mem_append]
      push_neg
      exact ⟨⟨(runScripts_no_terminal scripts 0 shellFlag).2,
        (runCommands_no_terminal cmds 0 _).2⟩, by simp⟩
  · intro hsf
    subst hsf
    have hsh : (runCommands 0 (runScripts 0 true scripts).2 cmds).2 = true := by
      rw [hflag]
      simp
    constructor
    · refine ⟨(runScripts 0 true scripts).1
        ++ (runCommands 0 (runScripts 0 true scripts).2 cmds).1, ?_⟩
      simp only [guestSession, hsh, if_true, List.append_assoc]
    · simp only [guestSession, hsh, if_true, List.mem_append]
      push_neg
      exact ⟨⟨(runScripts_no_terminal scripts 0 true).2,
        (runCommands_no_terminal cmds 0 _).2⟩, by simp⟩
  · intro hsf hns hnc
    subst hsf
    have hsh : (runCommands 0 (runScripts 0 false scripts).2 cmds).2 = false := by
      rw [hflag]
      have h1 : scripts.any (fun ok => !ok) = false := by
        rw [← Bool.not_eq_true]
        intro h
        exact hns (hanyS.mp h)
      have h2 : cmds.any (fun ok => !ok) = false := by
        rw [← Bool.not_eq_true]
        intro h
        exact hnc (hanyC.mp h)
      simp [h1, h2]
    constructor
    · refine ⟨(runScripts 0 false scripts).1
        ++ (runCommands 0 (runScripts 0 false scripts).2 cmds).1, ?_⟩
      simp only [guestSession, hsh, List.append_assoc]
      norm_num
    · simp only [guestSession, hsh, List.mem_append]
      norm_num
      push_neg
      exact ⟨⟨(runScripts_no_terminal scripts 0 false).1,
        (runCommands_no_terminal cmds 0 _).1⟩, by simp⟩

/-- Witness for `guest_session_policy`: with `shellFlag = false`, scripts
`[raises, succeeds]` and one succeeding command, the second script and the
command still run, the raising script gets a diagnostic, and the batch
ends in the interactive shell rather than starting the guest. -/
theorem guest_session_policy_witness :
    GuestEvent.ranScript 1 true ∈ guestSession false [false, true] [true] ∧
    GuestEvent.ranCommand 0 true ∈ guestSession false [false, true] [true] ∧
    GuestEvent.scriptDiag 0 ∈ guestSession false [false, true] [true] ∧
    (∃ pre, guestSession false [false, true] [true]
      = pre ++ [GuestEvent.enterShell]) ∧
    GuestEvent.startGuest ∉ guestSession false [false, true] [true] := by
  have h := guest_session_policy false [false, true] [true]
  have herr := h.2.2.2.2.1 (Or.inl (by decide))
  exact ⟨h.1 1 true rfl, h.2.1 0 true rfl, h.2.2.1 0 rfl, herr.1, herr.2⟩
